import Mathlib

/-!
Shallow embedding of the security-scanner engine of this repository
(`security_scanner/`): the severity model (`core/severity.py`), the result
model (`core/result.py`), the orchestrator's confidence filter and
cross-scanner deduplication (`engine/orchestrator.py`), the secret
scanner's masking and entropy filter (`engine/secret_scanner.py`), the
repository fetcher's priority/chunk window (`services/github_fetcher.py`)
and the OSV client's batch query and advisory normalization
(`services/osv_client.py`).

Python `float` values that the code compares with fixed decimal thresholds
(CVSS scores, priority bonuses) are modelled as rationals; text is modelled
as `String` or, where character-level reasoning about Python string
operations is needed (`str.replace`, entropy), as `List Char`.
-/

namespace SecScan

/-- `Severity` enum from `core/severity.py`. -/
inductive Severity where
  | critical
  | high
  | medium
  | low
  | info
deriving DecidableEq, Repr

/-- `Confidence` enum from `core/severity.py`. -/
inductive Confidence where
  | high
  | medium
  | low
deriving DecidableEq, Repr

/-- `Severity.from_cvss` (core/severity.py lines 19-39): convert a CVSS
score to a severity level. -/
def Severity.fromCvss (score : ℚ) : Severity :=
  if score ≥ 9 then .critical
  else if score ≥ 7 then .high
  else if score ≥ 4 then .medium
  else if score ≥ 1/10 then .low
  else .info

/-- `SeverityClassifier.get_priority_score` (core/severity.py lines
147-157): numeric priority for sorting (higher = more severe). -/
def priorityScore : Severity → ℕ
  | .critical => 4
  | .high => 3
  | .medium => 2
  | .low => 1
  | .info => 0

/-- The fields of `VulnerabilityResult` (core/result.py) that the
orchestrator-level and result-level claims depend on: the deduplication
key fields, severity and confidence.  The remaining fields (description,
impact, fix texts, references, ...) are carried opaquely by `extra` so
that distinct findings with equal key fields stay distinguishable. -/
structure VulnerabilityResult where
  title : String
  filePath : String
  line : Option ℕ
  vulnerabilityType : String
  severity : Severity
  confidence : Confidence
  extra : String := ""
  cweId : Option String := none
  rawMatch : Option (List Char) := none
deriving DecidableEq, Repr

/-- `VulnerabilityResult.priority_score` (core/result.py lines 82-91):
severity priority plus a confidence bonus of 0.3 / 0.1 / 0. -/
def VulnerabilityResult.priority (v : VulnerabilityResult) : ℚ :=
  (priorityScore v.severity : ℚ) +
    (match v.confidence with
      | .high => 3/10
      | .medium => 1/10
      | .low => 0)

/-- `ScanOrchestrator._filter_low_confidence` (engine/orchestrator.py lines
253-271): keep findings whose confidence is HIGH or MEDIUM, and otherwise
keep them only when severity is CRITICAL. -/
def filterLowConfidence (vulns : List VulnerabilityResult) :
    List VulnerabilityResult :=
  vulns.filter (fun v =>
    v.confidence = .high ∨ v.confidence = .medium ∨ v.severity = .critical)

/-- Deduplication key of `ScanOrchestrator._deduplicate_vulnerabilities`
(engine/orchestrator.py lines 281-287): `(title, file_path, line or 0,
vulnerability_type)`; a missing line number collapses to 0 as in the
Python `vuln.line or 0`. -/
def dedupKey (v : VulnerabilityResult) : String × String × ℕ × String :=
  (v.title, v.filePath, v.line.getD 0, v.vulnerabilityType)

/-- Loop of `ScanOrchestrator._deduplicate_vulnerabilities`
(engine/orchestrator.py lines 273-293), with the Python `seen` set
modelled as the list of keys inserted so far. -/
def dedupGo (seen : List (String × String × ℕ × String)) :
    List VulnerabilityResult → List VulnerabilityResult
  | [] => []
  | v :: rest =>
    if dedupKey v ∈ seen then dedupGo seen rest
    else v :: dedupGo (dedupKey v :: seen) rest

/-- `ScanOrchestrator._deduplicate_vulnerabilities`: starts with an empty
`seen` set. -/
def deduplicateVulnerabilities (vulns : List VulnerabilityResult) :
    List VulnerabilityResult :=
  dedupGo [] vulns

/-! ### `ScanResult.get_by_severity` and `ScanResult.to_dict`
(core/result.py lines 132-183) -/

/-- The sort in `ScanResult.get_by_severity` (core/result.py lines
147-151): `sorted(self.vulnerabilities, key=lambda v: v.priority_score,
reverse=True)` — a stable sort by priority score, highest first. -/
def sortByPriority (vulns : List VulnerabilityResult) :
    List VulnerabilityResult :=
  vulns.mergeSort (fun a b => decide (b.priority ≤ a.priority))

/-- The four severity groups built by `ScanResult.get_by_severity`; the
Python dict has exactly the keys `critical`, `high`, `medium`, `low`. -/
structure BySeverity where
  critical : List VulnerabilityResult
  high : List VulnerabilityResult
  medium : List VulnerabilityResult
  low : List VulnerabilityResult
deriving DecidableEq, Repr

/-- Loop body of `ScanResult.get_by_severity` (core/result.py lines
153-156): append the finding to the group named by its severity; a
severity whose tag is not one of the four keys (INFO) is appended
nowhere. -/
def groupStep (acc : BySeverity) (v : VulnerabilityResult) : BySeverity :=
  match v.severity with
  | .critical => { acc with critical := acc.critical ++ [v] }
  | .high => { acc with high := acc.high ++ [v] }
  | .medium => { acc with medium := acc.medium ++ [v] }
  | .low => { acc with low := acc.low ++ [v] }
  | .info => acc

/-- `ScanResult.get_by_severity` (core/result.py lines 132-158). -/
def getBySeverity (vulns : List VulnerabilityResult) : BySeverity :=
  (sortByPriority vulns).foldl groupStep ⟨[], [], [], []⟩

/-- The `summary` counts and `total_vulnerabilities` of
`ScanResult.to_dict` (core/result.py lines 160-183): the four group
lengths and the length of the full findings list. -/
def toDictCounts (vulns : List VulnerabilityResult) : ℕ × ℕ × ℕ × ℕ × ℕ :=
  let bySev := getBySeverity vulns
  (vulns.length, bySev.critical.length, bySev.high.length,
    bySev.medium.length, bySev.low.length)

/-! ### `GitHubFetcher.fetch_repository_files` priority/chunk window
(services/github_fetcher.py lines 452-476)

The claims about the fetcher quantify over an already categorized file
list, so the categorized lists are inputs here; the network fetch of each
windowed file is outside the window computation. -/

/-- Python's `x or d` for an optional integer: `None` and `0` are falsy
and select the default. -/
def pyOrNat (x : Option ℕ) (d : ℕ) : ℕ :=
  match x with
  | none => d
  | some n => if n = 0 then d else n

/-- `GitHubFetcher.MAX_FILES_TO_SCAN`. -/
def MAX_FILES_TO_SCAN : ℕ := 500

/-- Python list slice `l[a:b]` for natural bounds. -/
def pySlice (l : List α) (a b : ℕ) : List α :=
  (l.drop a).take (b - a)

/-- The chunk window of `GitHubFetcher.fetch_repository_files`
(services/github_fetcher.py lines 452-472): the prioritized candidate
list is all dependency files, then all config files, then source files;
`limit = max_files or 500`; `actual_limit = max(limit, len(dependency) +
len(config))`; the window is `files_to_scan[chunk_start:chunk_end]` with
`chunk_end = min(chunk_start + actual_limit, total)`. -/
def fetchWindow (depFiles configFiles sourceFiles : List String)
    (maxFiles : Option ℕ) (chunkStart : ℕ) : List String :=
  let filesToScan := depFiles ++ configFiles ++ sourceFiles
  let totalFiles := filesToScan.length
  let limit := pyOrNat maxFiles MAX_FILES_TO_SCAN
  let minRequired := depFiles.length + configFiles.length
  let actualLimit := max limit minRequired
  let chunkEnd := min (chunkStart + actualLimit) totalFiles
  pySlice filesToScan chunkStart chunkEnd

/-- `has_more` flag of the same chunk computation
(services/github_fetcher.py line 474). -/
def fetchHasMore (depFiles configFiles sourceFiles : List String)
    (maxFiles : Option ℕ) (chunkStart : ℕ) : Bool :=
  let totalFiles := (depFiles ++ configFiles ++ sourceFiles).length
  let limit := pyOrNat maxFiles MAX_FILES_TO_SCAN
  let minRequired := depFiles.length + configFiles.length
  let actualLimit := max limit minRequired
  decide (min (chunkStart + actualLimit) totalFiles < totalFiles)

/-! ### OSV client (services/osv_client.py) -/

/-- One entry of a raw OSV record's `severity` array: a `type` tag and a
numeric `score` (`float(sev.get('score', 0))` in
`OSVClient._parse_vulnerabilities`). -/
structure SeverityEntry where
  type : String
  score : ℚ
deriving DecidableEq, Repr

/-- One entry of a raw OSV record's `references` array; the `url` key may
be absent. -/
structure Reference where
  url : Option String
deriving DecidableEq, Repr

/-- One event inside an OSV affected range: the dict may carry a `fixed`
key, an `introduced` key, both or neither. -/
structure OSVEvent where
  fixed : Option String
  introduced : Option String
deriving DecidableEq, Repr

/-- One range of an OSV `affected` entry. -/
structure OSVRange where
  events : List OSVEvent
deriving DecidableEq, Repr

/-- One entry of an OSV record's `affected` array. -/
structure OSVAffected where
  ranges : List OSVRange
deriving DecidableEq, Repr

/-- A raw vulnerability record as read by
`OSVClient._parse_vulnerabilities` (services/osv_client.py lines
223-290): only the keys that function reads. -/
structure RawVuln where
  id : Option String
  summary : Option String
  details : Option String
  severity : List SeverityEntry
  dbSpecificSeverity : Option String
  aliases : List String
  references : List Reference
  affected : List OSVAffected
deriving DecidableEq, Repr

/-- The normalized advisory `VulnerabilityInfo` (services/osv_client.py
lines 16-29), restricted to the fields `_parse_vulnerabilities` fills. -/
structure VulnerabilityInfo where
  id : String
  summary : String
  severity : String
  cvssScore : Option ℚ
  cweIds : List String
  references : List String
  affectedVersions : List String
  fixedVersion : Option String
deriving DecidableEq, Repr

/-- Severity/CVSS extraction loop of `OSVClient._parse_vulnerabilities`
(lines 232-251): walk the `severity` entries, stop at the first
`CVSS_V3` entry and bucket its score; if none, fall back to the
`database_specific` severity (upper-cased, defaulting to `UNKNOWN`). -/
def osvSeverityOf (v : RawVuln) : String × Option ℚ :=
  match v.severity.find? (fun sev => sev.type == "CVSS_V3") with
  | some sev =>
    let s := sev.score
    (if s ≥ 9 then "CRITICAL"
     else if s ≥ 7 then "HIGH"
     else if s ≥ 4 then "MEDIUM"
     else "LOW", some s)
  | none => ((v.dbSpecificSeverity.getD "UNKNOWN").toUpper, none)

/-- The per-event reassignment of `fixed_version` in
`OSVClient._parse_vulnerabilities` (lines 270-272). -/
def fixedStep (acc : Option String) (e : OSVEvent) : Option String :=
  match e.fixed with
  | some f => some f
  | none => acc

/-- Fixed-version extraction of `OSVClient._parse_vulnerabilities` (lines
266-274): `fixed_version` starts as `None` and is reassigned at every
event that carries a `fixed` key, across all ranges of all affected
entries — so the last such event wins. -/
def osvFixedVersion (v : RawVuln) : Option String :=
  v.affected.foldl
    (fun acc affected =>
      affected.ranges.foldl
        (fun acc range =>
          range.events.foldl
            (fun acc event =>
              match event.fixed with
              | some f => some f
              | none => acc)
            acc)
        acc)
    none

/-- `affected_versions` accumulation of the same loop (lines 266-274). -/
def osvAffectedVersions (v : RawVuln) : List String :=
  v.affected.foldl
    (fun acc affected =>
      affected.ranges.foldl
        (fun acc range =>
          range.events.foldl
            (fun acc event =>
              match event.introduced with
              | some i => acc ++ [">=" ++ i]
              | none => acc)
            acc)
        acc)
    []

/-- Normalization of one raw record by `OSVClient._parse_vulnerabilities`
(lines 230-288). -/
def parseVulnerability (v : RawVuln) : VulnerabilityInfo :=
  let (severity, cvssScore) := osvSeverityOf v
  { id := v.id.getD "UNKNOWN"
    summary := v.summary.getD "No summary available"
    severity := severity
    cvssScore := cvssScore
    cweIds := v.aliases.filter (fun a => a.startsWith "CWE-")
    references := ((v.references.filterMap Reference.url).take 5)
    affectedVersions := osvAffectedVersions v
    fixedVersion := osvFixedVersion v }

/-- `OSVClient._parse_vulnerabilities` over a list of records. -/
def parseVulnerabilities (vulns : List RawVuln) : List VulnerabilityInfo :=
  vulns.map parseVulnerability

/-- The outcome of the one HTTP POST in `OSVClient._query_batch`: either a
response with a status code and a parsed `results` array, or a raised
`requests` exception (network error / timeout). -/
inductive BatchResponse where
  | response (status : ℕ) (results : List (List RawVuln))
  | requestException
deriving DecidableEq, Repr

/-- `OSVClient._query_batch` (services/osv_client.py lines 193-221) as a
function of the batch queries and the HTTP outcome: on a non-200 status
or a raised request exception it returns one empty list per query;
otherwise it parses each result entry and pads with empty lists up to the
number of queries.  (`queries` entries are opaque here: only their count
matters to the function.) -/
def queryBatch (queries : List α) (resp : BatchResponse) :
    List (List VulnerabilityInfo) :=
  match resp with
  | .requestException => queries.map (fun _ => [])
  | .response status results =>
    if status ≠ 200 then queries.map (fun _ => [])
    else
      let parsed := results.map parseVulnerabilities
      parsed ++ List.replicate (queries.length - parsed.length) []

/-- The traversal-ordered list of all `fixed` events of a raw record
(spec §4.4 talks about the "first `fixed` event found across all affected
ranges"; this flattened list makes "first" and "last" statable). -/
def fixedEvents (v : RawVuln) : List String :=
  (v.affected.flatMap (fun a =>
    a.ranges.flatMap (fun r => r.events))).filterMap OSVEvent.fixed

/-! ### Character-level string primitives

Python string operations used by the secret scanner
(engine/secret_scanner.py), modelled over `List Char`. -/

/-- The whitespace characters of Python's `str.strip` / regex `\s`
(ASCII range). -/
def isPySpace (c : Char) : Bool :=
  c = ' ' || c = '\t' || c = '\n' || c = '\r' || c = '\x0b' || c = '\x0c'

/-- ASCII lower-casing, Python `str.lower` on the ASCII range. -/
def asciiLower (c : Char) : Char :=
  if 'A' ≤ c ∧ c ≤ 'Z' then Char.ofNat (c.toNat + 32) else c

/-- ASCII upper-casing, Python `str.upper` on the ASCII range. -/
def asciiUpper (c : Char) : Char :=
  if 'a' ≤ c ∧ c ≤ 'z' then Char.ofNat (c.toNat - 32) else c

/-- `pat` is a prefix of `s`. -/
def hasPref : List Char → List Char → Bool
  | [], _ => true
  | _ :: _, [] => false
  | a :: as, b :: bs => a == b && hasPref as bs

/-- Python's `pat in s`: `pat` occurs contiguously somewhere in `s`. -/
def containsSub : List Char → List Char → Bool
  | s, pat =>
    hasPref pat s ||
      match s with
      | [] => false
      | _ :: t => containsSub t pat

/-- There is an occurrence of `pat` at index `i` of `s`. -/
def occAt (s pat : List Char) (i : ℕ) : Bool :=
  hasPref pat (s.drop i)

/-- Number of (possibly overlapping) occurrence positions of `pat` in
`s`. -/
def occCount (s pat : List Char) : ℕ :=
  ((List.range (s.length + 1)).filter (fun i => occAt s pat i)).length

/-- Fuelled core of Python's `str.replace`: scan left to right, replacing
each leftmost non-overlapping occurrence of `pat` by `rep`.  The fuel
only bounds recursion depth; with `fuel ≥ s.length` it never runs out
because every step consumes at least one character of `s`. -/
def replaceAllF (pat rep : List Char) : ℕ → List Char → List Char
  | _, [] => []
  | 0, c :: t => c :: t
  | fuel + 1, c :: t =>
    if !pat.isEmpty && hasPref pat (c :: t) then
      rep ++ replaceAllF pat rep fuel ((c :: t).drop pat.length)
    else c :: replaceAllF pat rep fuel t

/-- Python `s.replace(pat, rep)` for a non-empty `pat` (the scanner only
replaces non-empty regex matches). -/
def pyReplace (s pat rep : List Char) : List Char :=
  replaceAllF pat rep s.length s

/-- Python `str.split(sep)` for one separator character. -/
def pySplitOn (sep : Char) (s : List Char) : List (List Char) :=
  s.foldr
    (fun c acc =>
      match acc with
      | [] => [[c]]
      | h :: t => if c = sep then [] :: h :: t else (c :: h) :: t)
    [[]]

/-- Python `str.strip()` (whitespace on both ends). -/
def pyStrip (s : List Char) : List Char :=
  ((s.dropWhile isPySpace).reverse.dropWhile isPySpace).reverse

/-- Path component after the last `/`, `os.path.basename` for the paths
the scanner sees. -/
def pyBasename (p : List Char) : List Char :=
  (p.reverse.takeWhile (fun c => c ≠ '/')).reverse

/-! ### Secret scanner (engine/secret_scanner.py) -/

/-- The masked replacement that `SecretScanner._mask_secret_in_line`
(lines 269-279) substitutes for a secret longer than 8 characters: its
first 4 characters, 8 asterisks, its last 4 characters. -/
def maskOf (secret : List Char) : List Char :=
  secret.take 4 ++ List.replicate 8 '*' ++ secret.drop (secret.length - 4)

/-- `SecretScanner._mask_secret_in_line` (engine/secret_scanner.py lines
269-279): replace the secret in the line by `maskOf` when it is longer
than 8 characters, and by a full asterisk run otherwise. -/
def maskSecretInLine (line secret : List Char) : List Char :=
  if 8 < secret.length then pyReplace line secret (maskOf secret)
  else pyReplace line secret (List.replicate secret.length '*')

/-- The `raw_match` stored by `SecretScanner._scan_file` (line 182): the
masked line truncated to 200 characters. -/
def storedRawMatch (line secret : List Char) : List Char :=
  (maskSecretInLine line secret).take 200

/-- The literal-substring part of
`SecretScanner.FALSE_POSITIVE_PATTERNS` (lines 60-73): all of these
case-insensitive regexes are plain substring tests.  `xxx+` matches iff
`xxx` occurs; `your[_-]?(api[_-]?)?key` matches iff one of its twelve
expansions occurs. -/
def fpLiterals : List (List Char) :=
  ["example".toList, "test".toList, "fake".toList, "dummy".toList,
   "sample".toList, "placeholder".toList, "xxx".toList, "12345".toList,
   "changeme".toList, "password123".toList, "sk_test_".toList] ++
  (["".toList, "_".toList, "-".toList].flatMap (fun d1 =>
    ["".toList, "api".toList, "api_".toList, "api-".toList].map (fun m =>
      "your".toList ++ d1 ++ m ++ "key".toList)))

/-- One case-insensitive false-positive regex sweep over a string. -/
def fpPatternHit (s : List Char) : Bool :=
  fpLiterals.any (fun p => containsSub (s.map asciiLower) p)

/-- The template-placeholder literals of `SecretScanner._is_false_positive`
(lines 208-212), checked against the upper-cased match text. -/
def fpPlaceholders : List (List Char) :=
  ["<your".toList, "\x7b\x7b".toList, "$\x7b".toList, "%\x7b".toList,
   "YOUR_".toList, "ENTER_".toList, "INSERT_".toList, "REPLACE_".toList,
   "***".toList, "---".toList, "...".toList]

/-- `SecretScanner._is_false_positive` (engine/secret_scanner.py lines
187-217). -/
def isFalsePositive (matched lineContent filePath : List Char) : Bool :=
  fpPatternHit matched || fpPatternHit lineContent ||
  (let filename := (pyBasename filePath).map asciiLower
   containsSub filename "readme".toList || containsSub filename "doc".toList) ||
  fpPlaceholders.any (fun p => containsSub (matched.map asciiUpper) p)

/-- The comment prefixes of `SecretScanner._is_in_comment` (line 227). -/
def secretCommentStarts : List (List Char) :=
  ["#".toList, "//".toList, "/*".toList, "*".toList, "\"\"\"".toList,
   [Char.ofNat 39, Char.ofNat 39, Char.ofNat 39], "<!--".toList,
   "%".toList, ";".toList]

/-- `SecretScanner._is_in_comment` (engine/secret_scanner.py lines
219-233): the stripped line starts with one of the comment markers (the
file extension is computed but unused there). -/
def isInCommentSecret (line : List Char) : Bool :=
  secretCommentStarts.any (fun start => hasPref start (pyStrip line))

/-- A quote character of the regex `["\']([^"\']+)["\']`. -/
def isQuoteChar (c : Char) : Bool :=
  c = '"' || c = Char.ofNat 39

/-- Leftmost match of `["\']([^"\']+)["\']`
(`SecretScanner._extract_secret_value`, line 257): at each quote
character, the following maximal run of non-quote characters is the
captured group provided it is non-empty and a closing quote follows. -/
def extractQuoted : List Char → Option (List Char)
  | [] => none
  | c :: rest =>
    if isQuoteChar c then
      let run := rest.takeWhile (fun d => !isQuoteChar d)
      let rest2 := rest.drop run.length
      if !run.isEmpty && !rest2.isEmpty then some run
      else extractQuoted rest
    else extractQuoted rest

/-- Leftmost match of `=\s*([^\s;,\n]+)` (or the `:` variant)
(`SecretScanner._extract_secret_value`, lines 258-259): at each
separator, skip whitespace and capture the maximal run of
non-whitespace, non-`;`, non-`,` characters, provided it is non-empty. -/
def extractAfter (sep : Char) : List Char → Option (List Char)
  | [] => none
  | c :: rest =>
    if c = sep then
      let ws := rest.takeWhile isPySpace
      let rest2 := rest.drop ws.length
      let val := rest2.takeWhile (fun d => !isPySpace d && d ≠ ';' && d ≠ ',')
      if !val.isEmpty then some val else extractAfter sep rest
    else extractAfter sep rest

/-- `SecretScanner._extract_secret_value` (engine/secret_scanner.py lines
253-267): try the quoted-string capture, then the `=` assignment capture,
then the `:` capture; fall back to the whole match. -/
def extractSecretValue (matched : List Char) : List Char :=
  match extractQuoted matched with
  | some v => v
  | none =>
    match extractAfter '=' matched with
    | some v => v
    | none =>
      match extractAfter ':' matched with
      | some v => v
      | none => matched

/-- Character counts of a string, the multiset
`collections.Counter(text).values()` used by
`SecretScanner._calculate_entropy` (lines 235-251). -/
def charCounts (s : List Char) : List ℕ :=
  s.dedup.map (fun c => s.count c)

/-- The comparison `SecretScanner._calculate_entropy(s) <
SecretScanner.ENTROPY_THRESHOLD` with the threshold 3.5 (lines 76 and
157), decided exactly: for a non-empty `s` of length `n` with character
counts `cᵢ`, the Shannon entropy is `H = log2 n - (1/n)·Σ cᵢ·log2 cᵢ`,
and `H < 7/2  ↔  n^(2n) < 2^(7n) · Π cᵢ^(2cᵢ)` (clear denominators and
square to remove `2^(7n/2)`).  For empty `s` the Python function returns
`0.0`, which is below the threshold. -/
def entropyLt35 (s : List Char) : Bool :=
  if s.isEmpty then true
  else
    let n := s.length
    decide (n ^ (2 * n) < 2 ^ (7 * n) * ((charCounts s).map (fun c => c ^ (2 * c))).prod)

/-- The pattern fields of one entry of
`VulnerabilityPatterns.SECRET_PATTERNS` that the secret scanner's
per-match pipeline reads; the compiled regex itself stays outside the
model (a match is handed to `secretStepMatch` as its start offset and
matched text). -/
structure SecretPattern where
  title : String
  description : String
  severity : Severity
  confidence : Confidence
  vulnerabilityType : String
  cweId : Option String
deriving DecidableEq, Repr

/-- 1-based line number of a match, `content[:match.start()].count('\n')
+ 1` (engine/secret_scanner.py line 140). -/
def matchLineNum (content : List Char) (start : ℕ) : ℕ :=
  (content.take start).count '\n' + 1

/-- The matched line, `lines[line_num - 1] if line_num <= len(lines) else
""` (engine/secret_scanner.py line 141). -/
def matchLineContent (content : List Char) (start : ℕ) : List Char :=
  let lineNum := matchLineNum content start
  let lines := pySplitOn '\n' content
  if lineNum ≤ lines.length then lines.getD (lineNum - 1) [] else []

/-- The per-match pipeline in the inner loop of
`SecretScanner._scan_file` (engine/secret_scanner.py lines 139-183):
false-positive check, comment check, entropy filter for
MEDIUM-confidence patterns, content-hash deduplication, then emission of
the finding with a masked `raw_match`.  The `_found_secrets` set of
SHA-256 prefixes is modelled as the set of matched texts themselves (the
hash is a fixed function of the matched text, injective up to hash
collisions). -/
def secretStepMatch (p : SecretPattern) (filePath content : List Char)
    (start : ℕ) (matched : List Char) (found : List (List Char)) :
    Option VulnerabilityResult × List (List Char) :=
  let lineContent := matchLineContent content start
  if isFalsePositive matched lineContent filePath then (none, found)
  else if isInCommentSecret lineContent then (none, found)
  else if p.confidence = .medium &&
      (let v := extractSecretValue matched
       !v.isEmpty && entropyLt35 v) then (none, found)
  else if matched ∈ found then (none, found)
  else
    (some
      { title := p.title
        filePath := ⟨filePath⟩
        line := some (matchLineNum content start)
        vulnerabilityType := p.vulnerabilityType
        severity := p.severity
        confidence := p.confidence
        rawMatch := some (storedRawMatch lineContent matched) },
      matched :: found)

/-- Post-processing of merged detector findings in
`ScanOrchestrator.scan_repository` (engine/orchestrator.py lines
137-142): drop low-confidence findings unless requested otherwise, then
deduplicate across scanners. -/
def orchestratorPostProcess (includeLowConfidence : Bool)
    (vulns : List VulnerabilityResult) : List VulnerabilityResult :=
  deduplicateVulnerabilities
    (if includeLowConfidence then vulns else filterLowConfidence vulns)

/-! ### Code-pattern scanner (engine/code_pattern_scanner.py) and
configuration scanner (engine/config_scanner.py)

Compiled regular expressions are pure values: a compiled pattern is
modelled by its `finditer` function, mapping file content to the list of
matches (start offset and matched text), and an exclusion pattern by its
`search` predicate.  File maps (`Dict[str, str]`, insertion-ordered in
Python) are association lists. -/

/-- `os.path.splitext(path)[1]`: the extension of the basename's last
dot, where leading dots of the basename start no extension. -/
def pyExt (p : List Char) : List Char :=
  let b := pyBasename p
  let rest := b.drop (b.takeWhile (fun c => c = '.')).length
  if rest.contains '.' then
    '.' :: (rest.reverse.takeWhile (fun c => c ≠ '.')).reverse
  else []

/-- `CodePatternScanner.SCANNABLE_EXTENSIONS` (lines 41-45). -/
def SCANNABLE_EXTENSIONS : List (List Char) :=
  [".py", ".js", ".ts", ".jsx", ".tsx", ".java", ".go", ".rb", ".php",
   ".cs", ".rs", ".swift", ".kt"].map String.toList

/-- One entry of the pattern catalog as the code-pattern scanner reads it
(`VulnerabilityPattern`, core/patterns.py lines 15-29): metadata plus the
compiled match/exclusion functions. -/
structure CodePattern where
  title : String
  severity : Severity
  confidence : Confidence
  vulnerabilityType : String
  cweId : Option String
  fileExtensions : Option (List (List Char))
  excludeSearch : List (List Char → Bool)
  finditer : List Char → List (ℕ × List Char)

/-- Instance state of `CodePatternScanner` (lines 47-51): the basic and
advanced pattern tables, set in `__init__` and never reassigned. -/
structure CodePatternScannerState where
  patterns : List CodePattern
  advancedPatterns : List CodePattern
  enabled : Bool

/-- `CodePatternScanner.is_applicable` (lines 53-57). -/
def cpIsApplicable (path : List Char) : Bool :=
  SCANNABLE_EXTENSIONS.contains (pyExt (path.map asciiLower))

/-- The generic false-positive indicator words of
`CodePatternScanner._should_exclude` (lines 172-180). -/
def cpFpIndicators : List (List Char) :=
  ["test", "mock", "fake", "dummy", "example", "sample",
   "placeholder"].map String.toList

/-- `CodePatternScanner._should_exclude` (lines 158-189): pattern-specific
exclusions fire on the match text or the line; the generic indicator
words fire on the lowered line only for non-HIGH-confidence patterns. -/
def shouldExclude (p : CodePattern) (matchText lineContent : List Char) :
    Bool :=
  p.excludeSearch.any (fun ex => ex matchText || ex lineContent) ||
  (cpFpIndicators.any (fun ind => containsSub (lineContent.map asciiLower) ind)
    && !(p.confidence = .high))

/-- `CodePatternScanner._is_in_comment` (lines 191-224). -/
def isInCommentCode (line path : List Char) : Bool :=
  let ext := pyExt (path.map asciiLower)
  let stripped := pyStrip line
  (ext == ".py".toList &&
    (hasPref "#".toList stripped || hasPref "\"\"\"".toList stripped ||
      hasPref [Char.ofNat 39, Char.ofNat 39, Char.ofNat 39] stripped)) ||
  (([".js", ".ts", ".jsx", ".tsx", ".java", ".go", ".cs", ".rs"].map
      String.toList).contains ext &&
    (hasPref "//".toList stripped || hasPref "/*".toList stripped ||
      hasPref "*".toList stripped)) ||
  (ext == ".rb".toList && hasPref "#".toList stripped) ||
  (ext == ".php".toList &&
    (hasPref "//".toList stripped || hasPref "#".toList stripped ||
      hasPref "/*".toList stripped))

/-- Extension filter shared by
`VulnerabilityPatterns.get_patterns_for_file` (core/patterns.py lines
649-661) and the advanced-pattern filter (code_pattern_scanner.py lines
107-109): keep patterns with no extension restriction or whose list
contains the file's extension. -/
def patternAppliesToExt (ext : List Char) (p : CodePattern) : Bool :=
  match p.fileExtensions with
  | none => true
  | some exts => exts.contains ext

/-- The secret-category exclusion of `CodePatternScanner._scan_file`
(lines 112-115). -/
def isSecretCategory (p : CodePattern) : Bool :=
  let t := p.vulnerabilityType.toList.map asciiLower
  containsSub t "secret".toList || containsSub t "hardcoded".toList ||
    containsSub t "api_key".toList || containsSub t "private_key".toList

/-- `CodePatternScanner._scan_file` (lines 91-156): collect applicable
basic and advanced patterns, drop secret-category ones, and for every
regex match not excluded and not in a comment emit a finding whose
`raw_match` is the stripped line truncated to 200 characters. -/
def cpScanFile (st : CodePatternScannerState) (path content : List Char) :
    List VulnerabilityResult :=
  let ext := pyExt (path.map asciiLower)
  let patterns :=
    st.patterns.filter (patternAppliesToExt ext) ++
      st.advancedPatterns.filter (patternAppliesToExt ext)
  let patterns := patterns.filter (fun p => !isSecretCategory p)
  patterns.flatMap (fun p =>
    (p.finditer content).filterMap (fun m =>
      let lineContent := matchLineContent content m.1
      if shouldExclude p m.2 lineContent then none
      else if isInCommentCode lineContent path then none
      else some
        { title := p.title
          filePath := ⟨path⟩
          line := some (matchLineNum content m.1)
          vulnerabilityType := p.vulnerabilityType
          severity := p.severity
          confidence := p.confidence
          cweId := p.cweId
          rawMatch := some ((pyStrip lineContent).take 200) }))

/-- The documentation indicators of
`CodePatternScanner.filter_false_positives` (lines 244-248). -/
def cpDocIndicators : List (List Char) :=
  ["example:", "e.g.", "usage:", "note:", "@param", "@return",
   "@example", "todo:", ">>>", "docstring"].map String.toList

/-- Keep-decision of `CodePatternScanner.filter_false_positives` (lines
226-259) for one finding. -/
def cpKeepResult (v : VulnerabilityResult) : Bool :=
  match v.rawMatch with
  | none => true
  | some r =>
    if r.isEmpty then true
    else
      let rawLower := r.map asciiLower
      if cpDocIndicators.any (fun ind => containsSub rawLower ind) then false
      else if (containsSub (v.filePath.toList.map asciiLower) "/test".toList ||
          containsSub (v.filePath.toList.map asciiLower) "_test.".toList) &&
          !(v.confidence = .high) then false
      else true

/-- `CodePatternScanner.scan` (engine/code_pattern_scanner.py lines
59-89), in state-passing form: the method reads `self.patterns` and
`self.advanced_patterns` and assigns no instance attribute, so the
returned state is the input state. -/
def codePatternScan (st : CodePatternScannerState)
    (files : List (List Char × List Char)) :
    List VulnerabilityResult × CodePatternScannerState :=
  let results := files.flatMap (fun f =>
    if cpIsApplicable f.1 then cpScanFile st f.1 f.2 else [])
  (results.filter cpKeepResult, st)

/-- One entry of `ConfigScanner.CONFIG_PATTERNS` (`ConfigPattern`,
config_scanner.py lines 18-31): metadata, the compiled regex's
`finditer`, and the `file_patterns` glob list as its
`_matches_file_pattern` predicate. -/
structure ConfigPattern where
  title : String
  severity : Severity
  confidence : Confidence
  cweId : Option String
  appliesTo : List Char → Bool
  finditer : List Char → List (ℕ × List Char)

/-- Instance state of `ConfigScanner`: the pattern table and the
`enabled` flag from `BaseScanner.__init__`; `scan` assigns neither. -/
structure ConfigScannerState where
  configPatterns : List ConfigPattern
  enabled : Bool

/-- `ConfigScanner._is_comment` (config_scanner.py lines 355-367). -/
def isCommentConfig (line path : List Char) : Bool :=
  let stripped := pyStrip line
  let ext := pyExt (path.map asciiLower)
  if ext == ".yml".toList || ext == ".yaml".toList then
    hasPref "#".toList stripped
  else
    (["#", "//", "/*", "*", "<!--", "%", ";"].map String.toList).any
      (fun s => hasPref s stripped)

/-- Key of `ConfigScanner._deduplicate` (line 375): `(title, file_path,
line)` with the line number kept optional (no `or 0` here). -/
def configDedupKey (v : VulnerabilityResult) : String × String × Option ℕ :=
  (v.title, v.filePath, v.line)

/-- Loop of `ConfigScanner._deduplicate` (lines 369-380). -/
def configDedupGo (seen : List (String × String × Option ℕ)) :
    List VulnerabilityResult → List VulnerabilityResult
  | [] => []
  | v :: rest =>
    if configDedupKey v ∈ seen then configDedupGo seen rest
    else v :: configDedupGo (configDedupKey v :: seen) rest

/-- `ConfigScanner.scan` (config_scanner.py lines 295-353), in
state-passing form: outer loop over patterns, inner loop over files,
comment filtering, then deduplication by (title, path, line). -/
def configScan (st : ConfigScannerState)
    (files : List (List Char × List Char)) :
    List VulnerabilityResult × ConfigScannerState :=
  let results := st.configPatterns.flatMap (fun cp =>
    files.flatMap (fun f =>
      if cp.appliesTo f.1 then
        (cp.finditer f.2).filterMap (fun m =>
          let lineContent := matchLineContent f.2 m.1
          if isCommentConfig lineContent f.1 then none
          else some
            { title := cp.title
              filePath := ⟨f.1⟩
              line := some (matchLineNum f.2 m.1)
              vulnerabilityType := "insecure_configuration"
              severity := cp.severity
              confidence := cp.confidence
              cweId := cp.cweId
              rawMatch := some ((pyStrip lineContent).take 200) })
      else []))
  (configDedupGo [] results, st)

end SecScan

namespace SecScan

/-! ### Helper lemmas for the dedup characterization -/

theorem dedupGo_filter_of_mem (seen : List (String × String × ℕ × String))
    (l : List VulnerabilityResult) (k : String × String × ℕ × String)
    (hk : k ∈ seen) :
    (dedupGo seen l).filter (fun v => dedupKey v = k) = [] := by
  induction l generalizing seen with
  | nil => simp [dedupGo]
  | cons v rest ih =>
    by_cases hv : dedupKey v ∈ seen
    · simp only [dedupGo, if_pos hv]
      exact ih seen hk
    · simp only [dedupGo, if_neg hv]
      have hne : ¬ (dedupKey v = k) := fun h => hv (h ▸ hk)
      rw [List.filter_cons_of_neg (by simpa using hne)]
      exact ih (dedupKey v :: seen) (List.mem_cons_of_mem _ hk)

theorem dedupGo_filter_of_not_mem
    (seen : List (String × String × ℕ × String))
    (l : List VulnerabilityResult) (k : String × String × ℕ × String)
    (hk : k ∉ seen) :
    (dedupGo seen l).filter (fun v => dedupKey v = k) =
      (l.filter (fun v => dedupKey v = k)).take 1 := by
  induction l generalizing seen with
  | nil => simp [dedupGo]
  | cons v rest ih =>
    by_cases hv : dedupKey v ∈ seen
    · have hne : ¬ (dedupKey v = k) := fun h => hk (h ▸ hv)
      simp only [dedupGo, if_pos hv]
      rw [List.filter_cons_of_neg (by simpa using hne)]
      exact ih seen hk
    · simp only [dedupGo, if_neg hv]
      by_cases hvk : dedupKey v = k
      · rw [List.filter_cons_of_pos (by simpa using hvk),
          List.filter_cons_of_pos (by simpa using hvk)]
        simp only [List.take_succ_cons, List.take_zero]
        have : k ∈ dedupKey v :: seen := by simp [hvk]
        rw [dedupGo_filter_of_mem _ _ _ this]
      · rw [List.filter_cons_of_neg (by simpa using hvk),
          List.filter_cons_of_neg (by simpa using hvk)]
        exact ih (dedupKey v :: seen) (by
          intro h
          rcases List.mem_cons.mp h with h | h
          · exact hvk (by simpa using h.symm)
          · exact hk h)

theorem dedupGo_sublist (seen : List (String × String × ℕ × String))
    (l : List VulnerabilityResult) : (dedupGo seen l).Sublist l := by
  induction l generalizing seen with
  | nil => simp [dedupGo]
  | cons v rest ih =>
    by_cases hv : dedupKey v ∈ seen
    · simp only [dedupGo, if_pos hv]
      exact (ih seen).trans (List.sublist_cons_self v rest)
    · simp only [dedupGo, if_neg hv]
      exact (ih (dedupKey v :: seen)).cons₂ v

theorem length_le_one_of_take_one (l : List α) : (l.take 1).length ≤ 1 := by
  simp

/-- A list that contains two distinct elements has length at least two. -/
theorem two_le_length_of_mem_ne {α : Type} {l : List α} {a b : α}
    (ha : a ∈ l) (hb : b ∈ l) (hab : a ≠ b) : 2 ≤ l.length := by
  match l with
  | [] => cases ha
  | [x] =>
    rw [List.mem_singleton] at ha hb
    exact absurd (ha.trans hb.symm) hab
  | x :: y :: t => simp [List.length_cons]

end SecScan

namespace SecScan

/-! ### C2: CVSS-to-severity bucketing and monotonicity -/

/-- C2: `Severity.from_cvss` returns CRITICAL for scores ≥ 9.0, HIGH on
[7.0, 9.0), MEDIUM on [4.0, 7.0), LOW on [0.1, 4.0) and INFO below 0.1,
and is monotone: a lower score never yields a higher priority. -/
theorem fromCvss_buckets_and_monotone :
    (∀ s : ℚ,
      (9 ≤ s → Severity.fromCvss s = .critical) ∧
      (7 ≤ s ∧ s < 9 → Severity.fromCvss s = .high) ∧
      (4 ≤ s ∧ s < 7 → Severity.fromCvss s = .medium) ∧
      (1/10 ≤ s ∧ s < 4 → Severity.fromCvss s = .low) ∧
      (s < 1/10 → Severity.fromCvss s = .info)) ∧
    ∀ s t : ℚ, s ≤ t →
      priorityScore (Severity.fromCvss s) ≤ priorityScore (Severity.fromCvss t) := by
  constructor
  · intro s
    unfold Severity.fromCvss
    refine ⟨fun h => ?_, fun h => ?_, fun h => ?_, fun h => ?_, fun h => ?_⟩ <;>
      split_ifs <;> first | rfl | linarith
  · intro s t hst
    unfold Severity.fromCvss
    split_ifs <;> simp [priorityScore] <;> linarith

/-- Witness for C2 at concrete scores 5.0 and 9.5. -/
theorem fromCvss_buckets_and_monotone_witness :
    priorityScore (Severity.fromCvss 5) ≤ priorityScore (Severity.fromCvss (19/2)) ∧
      Severity.fromCvss (19/2) = .critical :=
  ⟨fromCvss_buckets_and_monotone.2 5 (19/2) (by norm_num),
    (fromCvss_buckets_and_monotone.1 (19/2)).1 (by norm_num)⟩

/-! ### C1: the orchestrator confidence filter -/

/-- C1, counterexample to the claim as stated: the claim says a
MEDIUM-confidence finding of non-CRITICAL severity is dropped when
`include_low_confidence` is false, but `_filter_low_confidence` keeps
every MEDIUM-confidence finding (orchestrator.py line 266 keeps both
HIGH and MEDIUM). -/
theorem filterLowConfidence_keeps_medium_counterexample :
    (let v : VulnerabilityResult :=
      { title := "Weak Hash Algorithm"
        filePath := "app/crypto.py"
        line := some 12
        vulnerabilityType := "weak_cryptography"
        severity := .low
        confidence := .medium }
    v.confidence = .medium ∧ v.severity ≠ .critical ∧
      filterLowConfidence [v] = [v] ∧ orchestratorPostProcess false [v] = [v]) := by
  refine ⟨rfl, by decide, rfl, rfl⟩

/-- C1 as amended: with `include_low_confidence` false, the filter keeps
exactly the findings whose confidence is HIGH or MEDIUM or whose
severity is CRITICAL — so only LOW-confidence, non-CRITICAL findings are
dropped. -/
theorem filterLowConfidence_spec (vulns : List VulnerabilityResult)
    (v : VulnerabilityResult) :
    v ∈ filterLowConfidence vulns ↔
      v ∈ vulns ∧
        (v.confidence = .high ∨ v.confidence = .medium ∨ v.severity = .critical) := by
  simp [filterLowConfidence, List.mem_filter]

end SecScan

namespace SecScan

/-! ### C4: cross-scanner deduplication -/

theorem dedupGo_key_not_mem (seen : List (String × String × ℕ × String))
    (l : List VulnerabilityResult) :
    ∀ w ∈ dedupGo seen l, dedupKey w ∉ seen := by
  induction l generalizing seen with
  | nil => simp [dedupGo]
  | cons v rest ih =>
    intro w hw
    by_cases hv : dedupKey v ∈ seen
    · rw [dedupGo, if_pos hv] at hw
      exact ih seen w hw
    · rw [dedupGo, if_neg hv] at hw
      rcases List.mem_cons.mp hw with h | h
      · exact h ▸ hv
      · intro hc
        exact ih (dedupKey v :: seen) w h (List.mem_cons_of_mem _ hc)

theorem dedupGo_pairwise (seen : List (String × String × ℕ × String))
    (l : List VulnerabilityResult) :
    (dedupGo seen l).Pairwise (fun a b => dedupKey a ≠ dedupKey b) := by
  induction l generalizing seen with
  | nil => simp [dedupGo]
  | cons v rest ih =>
    by_cases hv : dedupKey v ∈ seen
    · rw [dedupGo, if_pos hv]; exact ih seen
    · rw [dedupGo, if_neg hv]
      refine List.Pairwise.cons ?_ (ih (dedupKey v :: seen))
      intro w hw hkey
      exact dedupGo_key_not_mem _ _ w hw (hkey ▸ List.mem_cons_self _ _)

/-- C4: the orchestrator's deduplication returns an order-preserving
sublist of its input in which no two findings share the `(title, path,
line or 0, vulnerability_type)` key; for every key it keeps exactly the
first input finding with that key, so a key flagged by several detectors
survives exactly once. -/
theorem deduplicateVulnerabilities_spec (vulns : List VulnerabilityResult) :
    (deduplicateVulnerabilities vulns).Sublist vulns ∧
    (deduplicateVulnerabilities vulns).Pairwise
      (fun a b => dedupKey a ≠ dedupKey b) ∧
    (∀ k, (deduplicateVulnerabilities vulns).filter (fun v => dedupKey v = k) =
      (vulns.filter (fun v => dedupKey v = k)).take 1) ∧
    ∀ k, k ∈ vulns.map dedupKey →
      ((deduplicateVulnerabilities vulns).filter
        (fun v => dedupKey v = k)).length = 1 := by
  refine ⟨dedupGo_sublist [] vulns, dedupGo_pairwise [] vulns,
    fun k => dedupGo_filter_of_not_mem [] vulns k (by simp), fun k hk => ?_⟩
  rw [deduplicateVulnerabilities, dedupGo_filter_of_not_mem [] vulns k (by simp)]
  rcases List.mem_map.mp hk with ⟨v, hv, hkey⟩
  have hne : vulns.filter (fun v => dedupKey v = k) ≠ [] := by
    intro h
    have : v ∈ vulns.filter (fun v => dedupKey v = k) := by
      rw [List.mem_filter]
      exact ⟨hv, by simp [hkey]⟩
    simp [h] at this
  match hl : vulns.filter (fun v => dedupKey v = k) with
  | [] => exact absurd hl hne
  | w :: t => simp

/-- Witness for C4: two detectors report the same key (an identical
`DEBUG = True` finding from two scanners, carried with different
scanner tags in `extra`); exactly one finding with that key remains. -/
theorem deduplicateVulnerabilities_spec_witness :
    (let v1 : VulnerabilityResult :=
      { title := "Django DEBUG Mode Enabled in Production"
        filePath := "settings.py"
        line := some 3
        vulnerabilityType := "insecure_configuration"
        severity := .high
        confidence := .high
        extra := "config" }
    let v2 : VulnerabilityResult := { v1 with extra := "code_pattern" }
    ((deduplicateVulnerabilities [v1, v2]).filter
      (fun v => dedupKey v = dedupKey v1)).length = 1) :=
  (deduplicateVulnerabilities_spec _).2.2.2 _ (by simp)

end SecScan

namespace SecScan

/-! ### C8: batch query failure behaviour -/

/-- C8: a failed batch — non-200 HTTP status or a raised request
exception — makes `_query_batch` return one empty advisory list per
query; the function is total, so no exception reaches the caller. -/
theorem queryBatch_failure_spec {α : Type} (queries : List α) (status : ℕ)
    (results : List (List RawVuln)) :
    (status ≠ 200 →
      queryBatch queries (.response status results) =
        List.replicate queries.length []) ∧
    queryBatch queries .requestException = List.replicate queries.length [] := by
  constructor
  · intro h
    simp [queryBatch, h, List.map_const']
  · simp [queryBatch, List.map_const']

/-- Witness for C8: an HTTP 500 on a two-query batch, even one whose body
carries a parseable record, yields two empty lists. -/
theorem queryBatch_failure_spec_witness :
    queryBatch [1, 2] (.response 500
      [[{ id := some "OSV-1", summary := none, details := none,
          severity := [], dbSpecificSeverity := none, aliases := [],
          references := [], affected := [] }]]) = [[], []] :=
  (queryBatch_failure_spec [1, 2] 500 _).1 (by decide)

end SecScan

namespace SecScan

/-! ### C7: advisory normalization (fixed version, reference cap) -/

theorem foldl_over_flatMap {α β γ : Type} (g : α → List β) (f : γ → β → γ)
    (l : List α) (acc : γ) :
    (l.flatMap g).foldl f acc =
      l.foldl (fun acc x => (g x).foldl f acc) acc := by
  induction l generalizing acc with
  | nil => rfl
  | cons a t ih => simp [List.flatMap_cons, List.foldl_append, ih]

theorem foldl_fixedStep (l : List OSVEvent) (acc : Option String) :
    l.foldl fixedStep acc =
      match (l.filterMap OSVEvent.fixed).getLast? with
      | some f => some f
      | none => acc := by
  induction l generalizing acc with
  | nil => rfl
  | cons e t ih =>
    simp only [List.foldl_cons, List.filterMap_cons]
    cases he : e.fixed with
    | none => rw [ih]; simp [fixedStep, he]
    | some f =>
      rw [ih]
      cases hlf : t.filterMap OSVEvent.fixed with
      | nil => simp [fixedStep, he, hlf]
      | cons x xs =>
        simp only [hlf]
        cases hg : (x :: xs).getLast? with
        | none => rw [List.getLast?_eq_none_iff] at hg; cases hg
        | some y => rw [List.getLast?_cons_cons, hg]

theorem osvFixedVersion_eq_getLast (v : RawVuln) :
    osvFixedVersion v = (fixedEvents v).getLast? := by
  have h : osvFixedVersion v =
      (v.affected.flatMap (fun a =>
        a.ranges.flatMap (fun r => r.events))).foldl fixedStep none := by
    simp only [foldl_over_flatMap]
    rfl
  rw [h, foldl_fixedStep]
  show (match (fixedEvents v).getLast? with
    | some f => some f
    | none => none) = (fixedEvents v).getLast?
  cases (fixedEvents v).getLast? <;> rfl

/-- C7, counterexample to the claim as stated: with two affected ranges
whose `fixed` events are `1.0.0` then `2.0.0`, the normalized
fixed-version is `2.0.0`, not the first `fixed` event — the loop in
`_parse_vulnerabilities` reassigns without breaking, so the last event
wins. -/
theorem parseVulnerability_fixed_not_first :
    (let v : RawVuln :=
      { id := some "GHSA-0001", summary := none, details := none,
        severity := [], dbSpecificSeverity := none, aliases := [],
        references := [],
        affected := [⟨[⟨[⟨some "1.0.0", some "0"⟩]⟩]⟩,
                     ⟨[⟨[⟨some "2.0.0", none⟩]⟩]⟩] }
    (fixedEvents v).head? = some "1.0.0" ∧
      (parseVulnerability v).fixedVersion = some "2.0.0" ∧
      (parseVulnerability v).fixedVersion ≠ (fixedEvents v).head?) := by
  exact ⟨rfl, rfl, by decide⟩

/-- C7 as amended: the normalized advisory's fixed-version equals the
*last* `fixed` event encountered across all affected ranges (`None` when
no range has one), and its reference-URL list has at most 5 entries. -/
theorem parseVulnerability_spec (v : RawVuln) :
    (parseVulnerability v).fixedVersion = (fixedEvents v).getLast? ∧
    (parseVulnerability v).references.length ≤ 5 ∧
    (fixedEvents v = [] → (parseVulnerability v).fixedVersion = none) := by
  refine ⟨osvFixedVersion_eq_getLast v, ?_, fun h => ?_⟩
  · simp only [parseVulnerability]
    simp [List.length_take]
  · exact (osvFixedVersion_eq_getLast v).trans (by rw [h]; rfl)

/-- Witness for C7 at a record with one range and no `fixed` event. -/
theorem parseVulnerability_spec_witness :
    (parseVulnerability
      { id := none, summary := none, details := none, severity := [],
        dbSpecificSeverity := none, aliases := [], references := [],
        affected := [⟨[⟨[⟨none, some "0"⟩]⟩]⟩] }).fixedVersion = none :=
  (parseVulnerability_spec _).2.2 rfl

end SecScan

namespace SecScan

/-! ### C3: the priority-cap window of the repository fetcher -/

theorem take_min_length (K : ℕ) (l : List α) :
    l.take (min K l.length) = l.take K := by
  rcases le_total K l.length with h | h
  · rw [min_eq_left h]
  · rw [min_eq_right h, List.take_length, List.take_of_length_le h]

/-- C3, counterexample to the claim as stated: the claim's effective cap
is `max(max_files, count(dependency)+count(configuration))`, but a
requested cap of 0 is falsy in `limit = max_files or
self.MAX_FILES_TO_SCAN`, so the code substitutes the default cap 500:
with no dependency or configuration files the claimed cap is 0, yet the
window still contains a source file. -/
theorem fetchWindow_cap_counterexample :
    fetchWindow [] [] ["a.py"] (some 0) 0 = ["a.py"] ∧
      ¬ ((fetchWindow [] [] ["a.py"] (some 0) 0).length ≤
          max 0 (([] : List String).length + ([] : List String).length)) :=
  ⟨rfl, by decide⟩

/-- C3 as amended: for a positive requested cap `n` (a requested cap of
0, like an absent one, falls back to the default 500) and `chunk_start =
0`, the fetched window is all dependency files, then all configuration
files, then a prefix of the source files cut at `max(n, count(dep) +
count(config))`; and for every requested cap, every dependency and
configuration file is in the window. -/
theorem fetchWindow_priority_spec (dep config src : List String) (n : ℕ)
    (hn : 0 < n) :
    (fetchWindow dep config src (some n) 0 =
      (dep ++ config) ++
        src.take (max n (dep.length + config.length) -
          (dep.length + config.length))) ∧
    ∀ (maxFiles : Option ℕ) (f : String),
      f ∈ dep ++ config → f ∈ fetchWindow dep config src maxFiles 0 := by
  constructor
  · show pySlice (dep ++ config ++ src) 0
      (min (0 + max (pyOrNat (some n) MAX_FILES_TO_SCAN)
        (dep.length + config.length)) (dep ++ config ++ src).length) = _
    have hpy : pyOrNat (some n) MAX_FILES_TO_SCAN = n := by
      simp [pyOrNat, Nat.pos_iff_ne_zero.mp hn]
    rw [hpy]
    simp only [pySlice, List.drop_zero, Nat.zero_add, Nat.sub_zero]
    rw [show dep.length + config.length = (dep ++ config).length from
      (List.length_append dep config).symm]
    rw [take_min_length, List.take_append_eq_append_take,
      List.take_of_length_le (le_max_right _ _)]
  · intro maxFiles f hf
    show f ∈ pySlice (dep ++ config ++ src) 0 _
    simp only [pySlice, List.drop_zero, Nat.sub_zero]
    set K := min (0 + max (pyOrNat maxFiles MAX_FILES_TO_SCAN)
      (dep.length + config.length)) (dep ++ config ++ src).length with hK
    have hmK : (dep ++ config).length ≤ K := by
      rw [hK]
      refine le_min ?_ ?_
      · simp only [List.length_append]
        omega
      · simp only [List.length_append]
        omega
    have hmem : f ∈ ((dep ++ config ++ src).take K).take
        ((dep ++ config).length) := by
      rw [List.take_take, min_eq_left hmK, List.take_left]
      exact hf
    exact List.take_subset _ _ hmem

/-- Witness for C3: a requested cap of 1 with one dependency file, one
config file and three source files still returns both priority files. -/
theorem fetchWindow_priority_spec_witness :
    fetchWindow ["requirements.txt"] ["Dockerfile"] ["a.py", "b.py", "c.py"]
        (some 1) 0 = ["requirements.txt", "Dockerfile"] ∧
      "Dockerfile" ∈ fetchWindow ["requirements.txt"] ["Dockerfile"]
        ["a.py", "b.py", "c.py"] (some 1) 0 :=
  ⟨((fetchWindow_priority_spec ["requirements.txt"] ["Dockerfile"]
      ["a.py", "b.py", "c.py"] 1 (by decide)).1).trans (by decide),
    (fetchWindow_priority_spec ["requirements.txt"] ["Dockerfile"]
      ["a.py", "b.py", "c.py"] 1 (by decide)).2 (some 1) "Dockerfile" (by decide)⟩

end SecScan

namespace SecScan

/-! ### C10: INFO findings in the severity-grouped view -/

theorem foldl_groupStep_critical (l : List VulnerabilityResult)
    (acc : BySeverity) :
    (l.foldl groupStep acc).critical =
      acc.critical ++ l.filter (fun v => v.severity = .critical) := by
  induction l generalizing acc with
  | nil => simp
  | cons v t ih =>
    cases hv : v.severity <;>
      simp [groupStep, hv, ih, List.filter_cons]

theorem foldl_groupStep_high (l : List VulnerabilityResult)
    (acc : BySeverity) :
    (l.foldl groupStep acc).high =
      acc.high ++ l.filter (fun v => v.severity = .high) := by
  induction l generalizing acc with
  | nil => simp
  | cons v t ih =>
    cases hv : v.severity <;>
      simp [groupStep, hv, ih, List.filter_cons]

theorem foldl_groupStep_medium (l : List VulnerabilityResult)
    (acc : BySeverity) :
    (l.foldl groupStep acc).medium =
      acc.medium ++ l.filter (fun v => v.severity = .medium) := by
  induction l generalizing acc with
  | nil => simp
  | cons v t ih =>
    cases hv : v.severity <;>
      simp [groupStep, hv, ih, List.filter_cons]

theorem foldl_groupStep_low (l : List VulnerabilityResult)
    (acc : BySeverity) :
    (l.foldl groupStep acc).low =
      acc.low ++ l.filter (fun v => v.severity = .low) := by
  induction l generalizing acc with
  | nil => simp
  | cons v t ih =>
    cases hv : v.severity <;>
      simp [groupStep, hv, ih, List.filter_cons]

theorem filter_severity_lengths (l : List VulnerabilityResult) :
    (l.filter (fun v => v.severity = .critical)).length +
      (l.filter (fun v => v.severity = .high)).length +
      (l.filter (fun v => v.severity = .medium)).length +
      (l.filter (fun v => v.severity = .low)).length =
      (l.filter (fun v => ¬ v.severity = .info)).length := by
  induction l with
  | nil => simp
  | cons v t ih =>
    simp only [decide_not] at ih
    cases hv : v.severity <;>
      simp [List.filter_cons, hv, decide_not] <;> omega

theorem sortByPriority_perm (vulns : List VulnerabilityResult) :
    (sortByPriority vulns).Perm vulns :=
  List.mergeSort_perm vulns _

/-- C10: `get_by_severity` groups findings into exactly the four keys
critical/high/medium/low; an INFO finding lands in no group and in no
summary count, while `total_vulnerabilities` still counts it, so the sum
of the four summary counts equals the number of non-INFO findings — and
there are scan results where that sum is strictly below the total. -/
theorem getBySeverity_info_spec :
    (∀ vulns : List VulnerabilityResult,
      (∀ v : VulnerabilityResult, v.severity = .info →
        v ∉ (getBySeverity vulns).critical ∧ v ∉ (getBySeverity vulns).high ∧
        v ∉ (getBySeverity vulns).medium ∧ v ∉ (getBySeverity vulns).low) ∧
      (getBySeverity vulns).critical.length +
        (getBySeverity vulns).high.length +
        (getBySeverity vulns).medium.length +
        (getBySeverity vulns).low.length =
        (vulns.filter (fun v => ¬ v.severity = .info)).length ∧
      (toDictCounts vulns).1 = vulns.length) ∧
    ∃ vulns : List VulnerabilityResult,
      (toDictCounts vulns).2.1 + (toDictCounts vulns).2.2.1 +
        (toDictCounts vulns).2.2.2.1 + (toDictCounts vulns).2.2.2.2 <
        (toDictCounts vulns).1 := by
  have hc : ∀ vulns, (getBySeverity vulns).critical =
      (sortByPriority vulns).filter (fun v => v.severity = .critical) :=
    fun vulns => by
      rw [getBySeverity, foldl_groupStep_critical]; rfl
  have hh : ∀ vulns, (getBySeverity vulns).high =
      (sortByPriority vulns).filter (fun v => v.severity = .high) :=
    fun vulns => by
      rw [getBySeverity, foldl_groupStep_high]; rfl
  have hm : ∀ vulns, (getBySeverity vulns).medium =
      (sortByPriority vulns).filter (fun v => v.severity = .medium) :=
    fun vulns => by
      rw [getBySeverity, foldl_groupStep_medium]; rfl
  have hl : ∀ vulns, (getBySeverity vulns).low =
      (sortByPriority vulns).filter (fun v => v.severity = .low) :=
    fun vulns => by
      rw [getBySeverity, foldl_groupStep_low]; rfl
  have hsum : ∀ vulns : List VulnerabilityResult,
      (getBySeverity vulns).critical.length +
        (getBySeverity vulns).high.length +
        (getBySeverity vulns).medium.length +
        (getBySeverity vulns).low.length =
        (vulns.filter (fun v => ¬ v.severity = .info)).length := by
    intro vulns
    rw [hc, hh, hm, hl, filter_severity_lengths]
    exact ((sortByPriority_perm vulns).filter _).length_eq
  constructor
  · intro vulns
    refine ⟨fun v hv => ?_, hsum vulns, rfl⟩
    rw [hc, hh, hm, hl]
    refine ⟨?_, ?_, ?_, ?_⟩ <;>
      · intro hmem
        rw [List.mem_filter] at hmem
        rw [hv] at hmem
        simp at hmem
  · refine ⟨[⟨"Informational Note", "app.py", none,
      "information_disclosure", .info, .low, "", none, none⟩], ?_⟩
    show (getBySeverity _).critical.length + (getBySeverity _).high.length +
      (getBySeverity _).medium.length + (getBySeverity _).low.length < _
    rw [hsum]
    simp [toDictCounts]

/-- Witness for C10: an INFO finding is absent from the critical group of
its own scan result. -/
theorem getBySeverity_info_spec_witness :
    (let v : VulnerabilityResult :=
      { title := "Informational Note", filePath := "app.py", line := none,
        vulnerabilityType := "information_disclosure", severity := .info,
        confidence := .low }
    v ∉ (getBySeverity [v]).critical) :=
  ((getBySeverity_info_spec.1 _).1 _ rfl).1

end SecScan

namespace SecScan

/-! ### C9: determinism of the code-pattern and configuration scanners -/

/-- C9: `CodePatternScanner.scan` and `ConfigScanner.scan` are pure
functions of the file map: scanning the same file map twice yields equal
finding lists, and the scanner state after a scan equals the state before
it (neither method assigns an instance attribute). -/
theorem scan_deterministic (cst : CodePatternScannerState)
    (gst : ConfigScannerState) (files : List (List Char × List Char)) :
    (codePatternScan cst files).2 = cst ∧
    (codePatternScan ((codePatternScan cst files).2) files).1 =
      (codePatternScan cst files).1 ∧
    (configScan gst files).2 = gst ∧
    (configScan ((configScan gst files).2) files).1 =
      (configScan gst files).1 :=
  ⟨rfl, rfl, rfl, rfl⟩

/-! ### C6: the entropy filter for MEDIUM-confidence secret patterns -/

/-- C6: a secret match from a MEDIUM-confidence pattern whose extracted
value has Shannon entropy below 3.5 bits/char is discarded by the
per-match pipeline (no finding, dedup set unchanged); for a
HIGH-confidence pattern the entropy plays no role — the match is dropped
exactly when it is a false positive, sits in a comment line, or was
already seen. -/
theorem secret_entropy_filter_spec (p : SecretPattern)
    (filePath content : List Char) (start : ℕ) (matched : List Char)
    (found : List (List Char)) :
    (p.confidence = .medium →
      (extractSecretValue matched).isEmpty = false →
      entropyLt35 (extractSecretValue matched) = true →
      secretStepMatch p filePath content start matched found = (none, found)) ∧
    (p.confidence = .high →
      ((secretStepMatch p filePath content start matched found).1 = none ↔
        isFalsePositive matched (matchLineContent content start) filePath = true ∨
        isInCommentSecret (matchLineContent content start) = true ∨
        matched ∈ found)) := by
  constructor
  · intro hconf hval hent
    unfold secretStepMatch
    by_cases h1 : isFalsePositive matched (matchLineContent content start)
        filePath = true
    · simp [h1]
    · by_cases h2 : isInCommentSecret (matchLineContent content start) = true
      · simp [Bool.not_eq_true] at h1
        simp [h1, h2]
      · simp [Bool.not_eq_true] at h1 h2
        simp [h1, h2, hconf, hval, hent]
  · intro hconf
    unfold secretStepMatch
    have hmed : (decide (p.confidence = Confidence.medium) &&
        (!(extractSecretValue matched).isEmpty &&
          entropyLt35 (extractSecretValue matched))) = false := by
      simp [hconf]
    by_cases h1 : isFalsePositive matched (matchLineContent content start)
        filePath = true
    · simp [h1]
    · simp [Bool.not_eq_true] at h1
      by_cases h2 : isInCommentSecret (matchLineContent content start) = true
      · simp [h1, h2]
      · simp [Bool.not_eq_true] at h2
        by_cases h3 : matched ∈ found
        · simp [h1, h2, hmed, h3]
        · simp [h1, h2, hmed, h3]

/-- Witness for C6: `password="changeme"` captured by a MEDIUM-confidence
generic pattern is discarded — the extracted value `changeme` has entropy
2.75 < 3.5. -/
theorem secret_entropy_filter_spec_witness :
    secretStepMatch
      { title := "Generic Secret", description := "",
        severity := Severity.high, confidence := .medium,
        vulnerabilityType := "hardcoded_secret", cweId := some "CWE-798" }
      "config/settings.py".toList "password=\"changeme\"".toList 0
      "password=\"changeme\"".toList [] =
      (none, []) :=
  (secret_entropy_filter_spec _ _ _ _ _ _).1 rfl (by decide) (by decide)

end SecScan

namespace SecScan

/-! ### C5: secret masking — occurrence combinatorics -/

theorem hasPref_iff (p s : List Char) :
    hasPref p s = true ↔ ∃ t, s = p ++ t := by
  induction p generalizing s with
  | nil => simp [hasPref]
  | cons a as ih =>
    cases s with
    | nil => simp [hasPref]
    | cons b bs =>
      simp only [hasPref, Bool.and_eq_true, beq_iff_eq]
      constructor
      · rintro ⟨rfl, h⟩
        rcases (ih bs).mp h with ⟨t, rfl⟩
        exact ⟨t, rfl⟩
      · rintro ⟨t, ht⟩
        rw [List.cons_append] at ht
        injection ht with h1 h2
        exact ⟨h1.symm, (ih bs).mpr ⟨t, h2⟩⟩

theorem containsSub_iff (s p : List Char) :
    containsSub s p = true ↔ ∃ x y, s = x ++ p ++ y := by
  induction s with
  | nil =>
    rw [containsSub]
    simp only [Bool.or_eq_true, hasPref_iff]
    constructor
    · rintro (⟨t, ht⟩ | h)
      · exact ⟨[], t, by simpa using ht⟩
      · cases h
    · rintro ⟨x, y, hxy⟩
      rcases List.append_eq_nil.mp hxy.symm with ⟨hxp, hy⟩
      rcases List.append_eq_nil.mp hxp with ⟨hx, hpp⟩
      exact Or.inl ⟨[], by simp [hpp]⟩
  | cons c t ih =>
    rw [containsSub]
    simp only [Bool.or_eq_true, hasPref_iff, ih]
    constructor
    · rintro (⟨w, hw⟩ | ⟨x, y, hxy⟩)
      · exact ⟨[], w, by simpa using hw⟩
      · exact ⟨c :: x, y, by simp [hxy]⟩
    · rintro ⟨x, y, hxy⟩
      cases x with
      | nil =>
        left
        exact ⟨y, by simpa using hxy⟩
      | cons d ds =>
        right
        rw [List.cons_append, List.cons_append] at hxy
        injection hxy with h1 h2
        exact ⟨ds, y, h2⟩

theorem occAt_decomp (x p y : List Char) :
    occAt (x ++ p ++ y) p x.length = true := by
  unfold occAt
  rw [List.append_assoc, List.drop_left]
  exact (hasPref_iff p (p ++ y)).mpr ⟨y, rfl⟩

theorem unique_decomp_of_occCount (s p u v : List Char)
    (hcount : occCount s p = 1) (hs : s = u ++ p ++ v) :
    ∀ x y, s = x ++ p ++ y → x = u ∧ y = v := by
  intro x y hxy
  have hu : occAt s p u.length = true := by rw [hs]; exact occAt_decomp u p v
  have hx : occAt s p x.length = true := by rw [hxy]; exact occAt_decomp x p y
  have hul : u.length ≤ s.length := by
    have := congrArg List.length hs
    simp only [List.length_append] at this
    omega
  have hxl : x.length ≤ s.length := by
    have := congrArg List.length hxy
    simp only [List.length_append] at this
    omega
  have hlen : x.length = u.length := by
    by_contra hne
    have h2 : 2 ≤ ((List.range (s.length + 1)).filter
        (fun i => occAt s p i)).length :=
      two_le_length_of_mem_ne
        (List.mem_filter.mpr ⟨List.mem_range.mpr (by omega), hx⟩)
        (List.mem_filter.mpr ⟨List.mem_range.mpr (by omega), hu⟩) hne
    rw [occCount] at hcount
    omega
  have heq : x ++ (p ++ y) = u ++ (p ++ v) := by
    rw [← List.append_assoc, ← List.append_assoc, ← hxy, ← hs]
  rcases List.append_inj heq hlen with ⟨hxu, hyv⟩
  exact ⟨hxu, List.append_cancel_left hyv⟩

theorem replaceAllF_no_occ (p rep s : List Char)
    (h : ∀ x y, s ≠ x ++ p ++ y) :
    ∀ fuel, replaceAllF p rep fuel s = s := by
  induction s with
  | nil => intro fuel; cases fuel <;> rfl
  | cons c t ih =>
    intro fuel
    cases fuel with
    | zero => rfl
    | succ f =>
      have hnp : hasPref p (c :: t) = false := by
        cases hh : hasPref p (c :: t) with
        | false => rfl
        | true =>
          exfalso
          rcases (hasPref_iff _ _).mp hh with ⟨w, hw⟩
          exact h [] w (by simpa using hw)
      have hcond : (!p.isEmpty && hasPref p (c :: t)) = false := by
        rw [hnp, Bool.and_false]
      rw [replaceAllF, hcond]
      simp only [Bool.false_eq_true, if_false]
      refine congrArg (c :: ·) (ih ?_ f)
      intro x y hxy
      exact h (c :: x) y (by simp [hxy])

theorem replaceAllF_unique (p rep u v : List Char) (hp : p ≠ [])
    (huniq : ∀ x y, u ++ p ++ v = x ++ p ++ y → x = u ∧ y = v) :
    ∀ fuel, (u ++ p ++ v).length ≤ fuel →
      replaceAllF p rep fuel (u ++ p ++ v) = u ++ rep ++ v := by
  induction u with
  | nil =>
    intro fuel hfuel
    rcases List.exists_cons_of_ne_nil hp with ⟨a, as, rfl⟩
    simp only [List.nil_append] at hfuel huniq ⊢
    obtain ⟨f, rfl⟩ : ∃ f, fuel = f + 1 := by
      refine ⟨fuel - 1, ?_⟩
      rw [List.cons_append, List.length_cons] at hfuel
      omega
    have hpref : hasPref (a :: as) ((a :: as) ++ v) = true :=
      (hasPref_iff _ _).mpr ⟨v, rfl⟩
    rw [show (a :: as) ++ v = a :: (as ++ v) from rfl] at hpref ⊢
    rw [replaceAllF]
    have hcond : (!(a :: as : List Char).isEmpty &&
        hasPref (a :: as) (a :: (as ++ v))) = true := by
      rw [hpref]; rfl
    rw [hcond]
    simp only [if_true]
    refine congrArg (rep ++ ·) ?_
    have hdrop : (a :: (as ++ v)).drop (a :: as).length = v := by
      rw [show (a : Char) :: (as ++ v) = (a :: as) ++ v from rfl, List.drop_left]
    rw [hdrop]
    refine replaceAllF_no_occ _ _ _ ?_ f
    intro x y hxy
    have := huniq ((a :: as) ++ x) y (by simp [hxy, List.append_assoc])
    have hnil : (a :: as) ++ x = [] := this.1
    simp at hnil
  | cons c u' ih =>
    intro fuel hfuel
    have hs : ((c :: u') ++ p) ++ v = c :: ((u' ++ p) ++ v) := by simp
    rw [hs] at hfuel ⊢
    obtain ⟨f, rfl⟩ : ∃ f, fuel = f + 1 := by
      refine ⟨fuel - 1, ?_⟩
      rw [List.length_cons] at hfuel
      omega
    have hnp : hasPref p (c :: ((u' ++ p) ++ v)) = false := by
      cases hh : hasPref p (c :: ((u' ++ p) ++ v)) with
      | false => rfl
      | true =>
        exfalso
        rcases (hasPref_iff _ _).mp hh with ⟨w, hw⟩
        have := huniq [] w (by rw [← hs] at hw; simpa using hw)
        have hnil : ([] : List Char) = c :: u' := this.1
        simp at hnil
    have hcond : (!p.isEmpty && hasPref p (c :: ((u' ++ p) ++ v))) = false := by
      rw [hnp, Bool.and_false]
    rw [replaceAllF, hcond]
    simp only [Bool.false_eq_true, if_false]
    have htail : replaceAllF p rep f ((u' ++ p) ++ v) = (u' ++ rep) ++ v := by
      refine ih ?_ f ?_
      · intro x y hxy
        have := huniq (c :: x) y (by simp [hxy])
        injection this.1 with _ hxu
        exact ⟨hxu, this.2⟩
      · rw [List.length_cons] at hfuel
        omega
    rw [htail]
    rfl

theorem append_split_left {A B C D : List Char} (h : A ++ B = C ++ D)
    (hlen : C.length ≤ A.length) : ∃ w, A = C ++ w ∧ D = w ++ B := by
  refine ⟨A.drop C.length, ?_, ?_⟩
  · have h1 := congrArg (List.take C.length) h
    rw [List.take_append_eq_append_take, List.take_append_eq_append_take,
      Nat.sub_eq_zero_of_le hlen, Nat.sub_self] at h1
    simp only [List.take_zero, List.append_nil, List.take_length] at h1
    conv_lhs => rw [← List.take_append_drop C.length A]
    rw [h1]
  · have h2 := congrArg (List.drop C.length) h
    rw [List.drop_append_eq_append_drop, List.drop_append_eq_append_drop,
      Nat.sub_eq_zero_of_le hlen, Nat.sub_self] at h2
    simp only [List.drop_zero, List.drop_length, List.nil_append] at h2
    exact h2.symm

end SecScan

namespace SecScan

theorem maskOf_no_occ (u v p : List Char) (hlen : 8 < p.length)
    (hstar : '*' ∉ p)
    (huniq : ∀ x y, u ++ p ++ v = x ++ p ++ y → x = u ∧ y = v) :
    ∀ x y, u ++ maskOf p ++ v ≠ x ++ p ++ y := by
  intro x y h
  have hp : p ≠ [] := by
    intro hh
    rw [hh] at hlen
    simp at hlen
  have ha4 : (p.take 4).length = 4 := by
    rw [List.length_take]
    omega
  have hb4 : (p.drop (p.length - 4)).length = 4 := by
    rw [List.length_drop]
    omega
  rcases le_or_lt (x.length + p.length) (u.length + 4) with hcA | hcA
  · have hA : (u ++ p.take 4) ++
        (List.replicate 8 '*' ++ (p.drop (p.length - 4) ++ v)) =
        (x ++ p) ++ y := by
      simpa [maskOf, List.append_assoc] using h
    obtain ⟨w, hw1, -⟩ := append_split_left hA
      (by simp only [List.length_append, ha4]; omega)
    have hsplit : u ++ p ++ v = (u ++ p.take 4) ++ (p.drop 4 ++ v) := by
      simp only [List.append_assoc]
      rw [← List.append_assoc (List.take 4 p) (List.drop 4 p) v,
        List.take_append_drop]
    have hline : u ++ p ++ v = x ++ p ++ (w ++ (p.drop 4 ++ v)) := by
      rw [hsplit, hw1]
      simp [List.append_assoc]
    rcases huniq _ _ hline with ⟨hxu, -⟩
    rw [hxu] at hcA
    omega
  · rcases le_or_lt (u.length + 12) x.length with hcB | hcB
    · have hB : ((u ++ p.take 4) ++ List.replicate 8 '*') ++
          (p.drop (p.length - 4) ++ v) = x ++ (p ++ y) := by
        simpa [maskOf, List.append_assoc] using h
      obtain ⟨w, -, hw2⟩ := append_split_left hB.symm
        (by simp only [List.length_append, ha4, List.length_replicate]; omega)
      have hsplit : u ++ p ++ v = (u ++ p.take (p.length - 4)) ++
          (p.drop (p.length - 4) ++ v) := by
        simp only [List.append_assoc]
        rw [← List.append_assoc (List.take (p.length - 4) p)
          (List.drop (p.length - 4) p) v, List.take_append_drop]
      have hline : u ++ p ++ v =
          ((u ++ p.take (p.length - 4)) ++ w) ++ p ++ y := by
        rw [hsplit, hw2]
        simp [List.append_assoc]
      rcases huniq _ _ hline with ⟨hxu, -⟩
      have hxlen := congrArg List.length hxu
      simp only [List.length_append, List.length_take] at hxlen
      omega
    · rcases le_or_lt (u.length + 4) x.length with hx4 | hx4
      · have hC : (u ++ p.take 4) ++
            (List.replicate 8 '*' ++ (p.drop (p.length - 4) ++ v)) =
            x ++ (p ++ y) := by
          simpa [maskOf, List.append_assoc] using h
        obtain ⟨w, hw1, hw2⟩ := append_split_left hC.symm
          (by simp only [List.length_append, ha4]; omega)
        have hwlen : w.length < 8 := by
          have := congrArg List.length hw1
          simp only [List.length_append, ha4] at this
          omega
        obtain ⟨z, hz1, hz2⟩ := append_split_left hw2
          (by simp only [List.length_replicate]; omega)
        have hzne : z ≠ [] := by
          intro hz
          have := congrArg List.length hz1
          simp only [hz, List.length_replicate, List.append_nil] at this
          omega
        rcases List.exists_cons_of_ne_nil hzne with ⟨z0, z', rfl⟩
        have hz0 : z0 = '*' := by
          have hmem : z0 ∈ List.replicate 8 '*' := by
            rw [hz1]
            exact List.mem_append_right _ (List.mem_cons_self _ _)
          exact List.eq_of_mem_replicate hmem
        rcases List.exists_cons_of_ne_nil hp with ⟨p0, p', hpeq⟩
        have hp0 : p0 = z0 := by
          rw [hpeq, List.cons_append, List.cons_append] at hz2
          exact (List.cons_eq_cons.mp hz2).1
        exact hstar (by rw [hpeq, hp0, hz0]; exact List.mem_cons_self _ _)
      · have hC : (u ++ p.take 4) ++
            (List.replicate 8 '*' ++ (p.drop (p.length - 4) ++ v)) =
            x ++ (p ++ y) := by
          simpa [maskOf, List.append_assoc] using h
        obtain ⟨w, hw1, hw2⟩ := append_split_left hC
          (by simp only [List.length_append, ha4]; omega)
        have hwlen : w.length < p.length := by
          have := congrArg List.length hw1
          simp only [List.length_append, ha4] at this
          omega
        obtain ⟨z, hz1, hz2⟩ := append_split_left hw2 (le_of_lt hwlen)
        have hzne : z ≠ [] := by
          intro hz
          have := congrArg List.length hz1
          simp only [hz, List.length_append, List.append_nil] at this
          omega
        rcases List.exists_cons_of_ne_nil hzne with ⟨z0, z', rfl⟩
        have hz0 : z0 = '*' := by
          have hrep : (List.replicate 8 '*' : List Char) =
              '*' :: List.replicate 7 '*' := rfl
          rw [hrep, List.cons_append, List.cons_append] at hz2
          exact (List.cons_eq_cons.mp hz2).1.symm
        exact hstar (by
          rw [hz1, hz0]
          exact List.mem_append_right _ (List.mem_cons_self _ _))

theorem containsSub_false_of_no_occ (s p : List Char)
    (h : ∀ x y, s ≠ x ++ p ++ y) : containsSub s p = false := by
  cases hcs : containsSub s p with
  | false => rfl
  | true =>
    exfalso
    rcases (containsSub_iff s p).mp hcs with ⟨x, y, hxy⟩
    exact h x y hxy

theorem take_no_occ (s p : List Char) (n : ℕ)
    (h : ∀ x y, s ≠ x ++ p ++ y) : ∀ x y, s.take n ≠ x ++ p ++ y := by
  intro x y hxy
  apply h x (y ++ s.drop n)
  conv_lhs => rw [← List.take_append_drop n s]
  rw [hxy]
  simp [List.append_assoc]

end SecScan

namespace SecScan

/-- C5, counterexample to the claim as stated: Python's `str.replace`
rewrites leftmost non-overlapping occurrences, so with the 19-character
line `aaaaaaaaaaaaaaaaaaa` and the matched 10-character secret
`aaaaaaaaaa`, the masked line is `aaaa********aaaaaaaaaaaaa`, whose tail
still contains the secret literal: the stored `raw_match` contains the
original secret. -/
theorem maskSecretInLine_counterexample :
    8 < (List.replicate 10 'a').length ∧
      containsSub (List.replicate 19 'a') (List.replicate 10 'a') = true ∧
      containsSub (storedRawMatch (List.replicate 19 'a')
        (List.replicate 10 'a')) (List.replicate 10 'a') = true := by
  decide

/-- C5 as amended: when a secret longer than 8 characters contains no
asterisk and occurs exactly once in the matched line, the masked line
replaces that occurrence by first-4 + 8 asterisks + last-4, and the
stored `raw_match` (the masked line truncated to 200 characters) does
not contain the secret literal.  (The counterexample forces the
single-occurrence and asterisk-free restrictions; real secret matches
can violate them, e.g. a secret that overlaps itself in the line.) -/
theorem maskSecretInLine_spec (u v p : List Char) (hlen : 8 < p.length)
    (hstar : '*' ∉ p) (hcount : occCount (u ++ p ++ v) p = 1) :
    maskSecretInLine (u ++ p ++ v) p = u ++ maskOf p ++ v ∧
      containsSub (storedRawMatch (u ++ p ++ v) p) p = false := by
  have hp : p ≠ [] := by
    intro hh
    rw [hh] at hlen
    simp at hlen
  have huniq := unique_decomp_of_occCount _ p u v hcount rfl
  have h1 : maskSecretInLine (u ++ p ++ v) p = u ++ maskOf p ++ v := by
    rw [maskSecretInLine, if_pos hlen, pyReplace]
    exact replaceAllF_unique p (maskOf p) u v hp huniq _ (le_refl _)
  refine ⟨h1, ?_⟩
  rw [storedRawMatch, h1]
  exact containsSub_false_of_no_occ _ _
    (take_no_occ _ _ _ (maskOf_no_occ u v p hlen hstar huniq))

/-- Witness for C5 at the line `key = SECRETKEY1234;`. -/
theorem maskSecretInLine_spec_witness :
    maskSecretInLine
        ("key = ".toList ++ "SECRETKEY1234".toList ++ ";".toList)
        "SECRETKEY1234".toList =
      "key = ".toList ++ maskOf "SECRETKEY1234".toList ++ ";".toList ∧
      containsSub (storedRawMatch
        ("key = ".toList ++ "SECRETKEY1234".toList ++ ";".toList)
        "SECRETKEY1234".toList) "SECRETKEY1234".toList = false :=
  maskSecretInLine_spec "key = ".toList ";".toList "SECRETKEY1234".toList
    (by decide) (by decide) (by decide)

end SecScan
